import Mathlib

/-!
Verification of the change-reconciliation engine of the MyraSec
external-dns webhook provider (package myrasecprovider).

The Go source is shallowly embedded: each Go function of the
reconciliation path becomes a Lean function of the same name.  Stateful
aspects are made explicit:

* the MyraSec API client is modelled by a response oracle
  (MutCall to Option String): none means the backend call succeeded,
  some e means it failed with error text e (the Go code classifies
  errors by substring matching on their text);
* every mutation issued to the backend (create, update, delete of a DNS
  record) is collected in a trace (List MutCall); the read-only
  ListDNSRecords snapshot is passed in as an explicit list;
* the worker pool of processTasksWithWorkers is linearized: tasks are
  processed sequentially in task order, the first error stops the run.
  The claims proved below are insensitive to the schedule (they concern
  emptiness or membership of the trace and the final error);
* the numeric domain id is produced by strconv.Itoa and re-parsed with
  strconv.Atoi in the source, which cannot fail on that round trip, so
  the id plays no role and is omitted;
* the ENV environment variable read by isProduction is passed as an
  explicit argument.
-/

/-! ## Character-level string helpers

Go's strings.Trim, strings.ReplaceAll (with single-character patterns)
and strings.Contains are embedded as character-list operations. -/

/-- Go strings.Trim: remove all leading and trailing characters belonging
to the cutset. -/
def trimCutset (cut : List Char) (l : List Char) : List Char :=
  ((l.dropWhile (fun c => cut.contains c)).reverse.dropWhile
      (fun c => cut.contains c)).reverse

/-- Go strings.ReplaceAll with a single-character pattern and empty
replacement: delete every occurrence of the character. -/
def removeChar (c : Char) (l : List Char) : List Char :=
  l.filter (fun x => x != c)

/-- Go strings.ReplaceAll with single-character pattern and single-character
replacement: map every occurrence of the pattern character. -/
def replaceChar (c r : Char) (l : List Char) : List Char :=
  l.map (fun x => if x == c then r else x)

/-- Occurrence of pat as a contiguous subsequence of s, checked at every
starting position. -/
def listHasInfix : List Char → List Char → Bool
  | [], pat => pat.isEmpty
  | c :: t, pat => pat.isPrefixOf (c :: t) || listHasInfix t pat

/-- Go strings.Contains: pattern occurs as a contiguous substring. -/
def containsSubstr (s pat : String) : Bool :=
  listHasInfix s.toList pat.toList

/-! ## Value Formatter (formatTXTValue, formatRecordValue) -/

/-- Cutset of the strings.Trim call in formatTXTValue: double quote and
single quote. -/
def txtCutset : List Char := ['"', '\'']

/-- Character-list body of formatTXTValue: trim surrounding quote
characters, delete double quotes, replace newline, carriage return and
tab by spaces (in this order, as in the source). -/
def formatTXTList (l : List Char) : List Char :=
  replaceChar '\t' ' '
    (replaceChar '\r' ' '
      (replaceChar '\n' ' '
        (removeChar '"' (trimCutset txtCutset l))))

/-- Embeds formatTXTValue: sanitizes a TXT record value by removing
quotes and collapsing newlines, carriage returns and tabs to spaces. -/
def formatTXTValue (value : String) : String :=
  String.mk (formatTXTList value.toList)

/-- Embeds formatRecordValue: TXT values are sanitized, every other
record type passes through unchanged.  (The Go method takes the provider
receiver but does not use it.) -/
def formatRecordValue (value recordType : String) : String :=
  if recordType == "TXT" then formatTXTValue value else value

/-! ## DNS name helpers -/

/-- Character-list body of stripTrailingDot. -/
def stripDotList (l : List Char) : List Char :=
  match l.getLast? with
  | some '.' => l.dropLast
  | _ => l

/-- Embeds stripTrailingDot: remove a final dot from a DNS name. -/
def stripTrailingDot (name : String) : String :=
  String.mk (stripDotList name.toList)

/-! ## Data model -/

/-- Embeds the myrasec.DNSRecord fields used by the reconciliation path.
The backend-assigned id is not inspected by any embedded function and is
omitted. -/
structure DNSRecord where
  name : String
  recordType : String
  value : String
  ttl : Int
  active : Bool
  enabled : Bool
deriving DecidableEq

/-- Embeds the endpoint.Endpoint fields used by the reconciliation path.
resourceLabel models Labels[ResourceLabelKey]; the owner label is
overwritten with the provider's owner before use and therefore not
modelled as an input. -/
structure Endpoint where
  dnsName : String
  recordType : String
  targets : List String
  recordTTL : Int
  resourceLabel : Option String
deriving DecidableEq

/-- Configuration of MyraSecDNSProvider that the reconciliation path
reads (domainName is set from the selected domain before task
processing). -/
structure Provider where
  domainName : String
  ttl : Int
  owner : String
  disableProtection : Bool
  dryRun : Bool
deriving DecidableEq

/-- One mutation call reaching the backend client, carrying the record
exactly as the Go code passes it to CreateDNSRecord, UpdateDNSRecord or
DeleteDNSRecord. -/
inductive MutCall where
  | createRec (r : DNSRecord)
  | updateRec (r : DNSRecord)
  | deleteRec (r : DNSRecord)
deriving DecidableEq

/-- The value field of the record a mutation call carries. -/
def mutValue : MutCall → String
  | .createRec r => r.value
  | .updateRec r => r.value
  | .deleteRec r => r.value

/-- Selector for update calls (used to state retention properties). -/
def isUpdateCall : MutCall → Bool
  | .updateRec _ => true
  | .createRec _ => false
  | .deleteRec _ => false

/-- Backend response oracle: none is success, some e is failure with
error text e. -/
def Resp : Type := MutCall → Option String

/-- The all-success backend. -/
def respOk : Resp := fun _ => none

/-! ## Environment and safety policy -/

/-- Go strings.Split with a single-character separator, on character
lists (an empty input yields one empty field, as in Go). -/
def splitOnChar (sep : Char) : List Char → List (List Char)
  | [] => [[]]
  | c :: t =>
    if c == sep then [] :: splitOnChar sep t
    else
      match splitOnChar sep t with
      | [] => [[c]]
      | h :: r => (c :: h) :: r

/-- Embeds isProduction: the lowercased ENV value belongs to the fixed
set of production-like names.  Lowercasing is per character (the
recognized names are ASCII). -/
def isProduction (env : String) : Bool :=
  let e := String.mk (env.toList.map Char.toLower)
  e == "prod" || e == "production" || e == "staging"

/-- Embeds the decimal-octet part of Go's net.ParseIP for dotted-quad
IPv4: nonempty, all digits, no leading zero, value at most 255. -/
def parseIPv4Octet (l : List Char) : Option Nat :=
  if l.isEmpty then none
  else if !(l.all (fun c => c.isDigit)) then none
  else if l.length > 1 && l.headD ' ' == '0' then none
  else
    let n := l.foldl (fun acc c => acc * 10 + (c.toNat - 48)) 0
    if n ≤ 255 then some n else none

/-- Embeds Go's net.ParseIP restricted to dotted-quad IPv4 form. -/
def parseIPv4 (s : String) : Option (Nat × Nat × Nat × Nat) :=
  match splitOnChar '.' s.toList with
  | [a, b, c, d] => do
    let a ← parseIPv4Octet a
    let b ← parseIPv4Octet b
    let c ← parseIPv4Octet c
    let d ← parseIPv4Octet d
    pure (a, b, c, d)
  | _ => none

/-- Embeds isPrivateIP: membership of the parsed address in the fixed
private blocks 10/8, 172.16/12, 192.168/16, 169.254/16 (link-local),
127/8 (loopback) and the IPv6 loopback.  The IPv6 side of net.ParseIP is
modelled by its canonical loopback literal, the only IPv6 address the
private blocks contain. -/
def isPrivateIP (ipStr : String) : Bool :=
  if ipStr == "::1" then true
  else
    match parseIPv4 ipStr with
    | none => false
    | some (a, b, _, _) =>
      a == 10 || (a == 172 && decide (16 ≤ b ∧ b ≤ 31)) ||
        (a == 192 && b == 168) || (a == 169 && b == 254) || a == 127

/-- Embeds isPrivateEndpoint: for A and AAAA records, true when any
target is a private or loopback address. -/
def isPrivateEndpoint (ep : Endpoint) : Bool :=
  (ep.recordType == "A" || ep.recordType == "AAAA") &&
    ep.targets.any isPrivateIP

/-! ## Ownership -/

/-- Embeds isOwnedByExternalDNS: substring containment of the heritage
marker and of the owner fragment built from the configured owner. -/
def isOwnedByExternalDNS (txtValue owner : String) : Bool :=
  containsSubstr txtValue "heritage=external-dns" &&
    containsSubstr txtValue ("external-dns/owner=" ++ owner)

/-- The ownership TXT value written by processCreateActions:
heritage marker, owner fragment and optional resource fragment. -/
def ownershipTXTValue (owner : String) (resource : Option String) : String :=
  "heritage=external-dns,external-dns/owner=" ++ owner ++
    (match resource with
     | some r => ",external-dns/resource=" ++ r
     | none => "")

/-- Embeds the txtRecords index built by processUpdateActions and
processDeleteActions (a Go map filled in record order, last write wins)
followed by its lookup: the value of the last TXT record with the given
name, if any. -/
def txtLookup (records : List DNSRecord) (name : String) : Option String :=
  ((records.filter (fun r => r.recordType == "TXT" && r.name == name)).map
      (fun r => r.value)).getLast?

/-- Modelled from the spec, section 4.1, for comparison with the source
predicate isOwnedByExternalDNS: the token is split into comma-separated
components, the heritage marker must be one component, and some
component must carry exactly the configured owner identifier. -/
def specTokenValid (txtValue owner : String) : Bool :=
  let parts := (splitOnChar ',' txtValue.toList).map String.mk
  parts.contains "heritage=external-dns" &&
    parts.contains ("external-dns/owner=" ++ owner)

/-! ## Record matcher -/

/-- Embeds ensureFullDNSName: append the selected domain name unless the
name already carries it as a suffix. -/
def ensureFullDNSName (p : Provider) (dnsName : String) : String :=
  if p.domainName == "" then dnsName
  else if p.domainName.toList.isSuffixOf dnsName.toList then dnsName
  else dnsName ++ "." ++ p.domainName

/-- Embeds findMatchingRecords: all records agreeing on the
trailing-dot-insensitive name and the record type. -/
def findMatchingRecords (records : List DNSRecord) (dnsName recordType : String) :
    List DNSRecord :=
  records.filter (fun r =>
    stripTrailingDot r.name == stripTrailingDot dnsName &&
      r.recordType == recordType)

/-! ## Backend call wrappers (createDNSRecord, deleteDNSRecord)

Each wrapper returns the trace of mutation calls it issued together with
the error it propagates (none on success or tolerated failure). -/

/-- Error text the backend uses for duplicate values (string-matched by
createDNSRecord). -/
def dupErrText : String := "This value is already used"

/-- Error text the backend uses for private network targets
(string-matched by createDNSRecord). -/
def privErrText : String := "private network range"

/-- The record createDNSRecord sends to the backend: the value is
formatted (again) for the record type, Active mirrors the protection
setting, Enabled is always true. -/
def mkDNSRecord (p : Provider) (dnsName recordType value : String) (ttl : Int) :
    DNSRecord :=
  { name := dnsName
    recordType := recordType
    value := formatRecordValue value recordType
    ttl := ttl
    active := !p.disableProtection
    enabled := true }

/-- Embeds createDNSRecord: issue the create call; a duplicate-value
error and a private-network error are tolerated (both branches of the
private case return nil in the source, differing only in logging), any
other error is propagated. -/
def createDNSRecord (p : Provider) (resp : Resp) (dnsName recordType value : String)
    (ttl : Int) : List MutCall × Option String :=
  let record := mkDNSRecord p dnsName recordType value ttl
  match resp (.createRec record) with
  | none => ([MutCall.createRec record], none)
  | some e =>
    if containsSubstr e dupErrText then ([MutCall.createRec record], none)
    else if containsSubstr e privErrText then ([MutCall.createRec record], none)
    else ([MutCall.createRec record], some e)

/-- Embeds deleteDNSRecord: issue the delete call and propagate its
error. -/
def deleteDNSRecord (resp : Resp) (record : DNSRecord) :
    List MutCall × Option String :=
  match resp (.deleteRec record) with
  | none => ([MutCall.deleteRec record], none)
  | some e => ([MutCall.deleteRec record], some e)

/-! ## Create path (processCreateActions) -/

/-- The target loop of processCreateActions: one create call per target,
stopping at the first propagated error. -/
def createTargets (p : Provider) (resp : Resp) (dnsName recordType : String)
    (ttl : Int) : List String → List MutCall × Option String
  | [] => ([], none)
  | t :: ts =>
    let val := formatRecordValue t recordType
    let res := createDNSRecord p resp dnsName recordType val ttl
    match res.2 with
    | some e => (res.1, some e)
    | none =>
      let rest := createTargets p resp dnsName recordType ttl ts
      (res.1 ++ rest.1, rest.2)

/-- The body of the processCreateActions loop for one endpoint: skip
private endpoints in production, create one record per target, then (for
non-TXT types) create the co-located ownership TXT record.  There is no
ownership check on this path. -/
def processCreateEndpoint (p : Provider) (env : String) (resp : Resp)
    (ep : Endpoint) : List MutCall × Option String :=
  let dnsName := ensureFullDNSName p (stripTrailingDot ep.dnsName)
  if isProduction env && isPrivateEndpoint ep then ([], none)
  else
    let ttl := if ep.recordTTL > 0 then ep.recordTTL else p.ttl
    let res := createTargets p resp dnsName ep.recordType ttl ep.targets
    match res.2 with
    | some e => (res.1, some e)
    | none =>
      if ep.recordType != "TXT" then
        let txtVal := ownershipTXTValue p.owner ep.resourceLabel
        let res2 := createDNSRecord p resp dnsName "TXT" txtVal ttl
        (res.1 ++ res2.1, res2.2)
      else (res.1, none)

/-- Embeds processCreateActions: process each endpoint in order, first
propagated error stops the loop. -/
def processCreateActions (p : Provider) (env : String) (resp : Resp) :
    List Endpoint → List MutCall × Option String
  | [] => ([], none)
  | ep :: eps =>
    let res := processCreateEndpoint p env resp ep
    match res.2 with
    | some e => (res.1, some e)
    | none =>
      let rest := processCreateActions p env resp eps
      (res.1 ++ rest.1, rest.2)

/-! ## Update path (processUpdateActions) -/

/-- The current value-to-record index of processUpdateActions: a Go map
keyed by record value, filled in record order with last write winning.
The iteration is modelled in snapshot order over the surviving (last)
entry for each value. -/
def lastPerValue : List DNSRecord → List DNSRecord
  | [] => []
  | r :: rs =>
    if rs.any (fun r2 => r2.value == r.value) then lastPerValue rs
    else r :: lastPerValue rs

/-- Step 1 of the update diff: walk the current entries; a value still
desired is retained (with an update call when TTL, active flag or stored
name drifted) and removed from the desired set, a value no longer
desired is deleted.  Returns the trace, the propagated error and the
remaining desired values. -/
def updateExistingLoop (resp : Resp) (dnsName : String) (ttl : Int) (active : Bool) :
    List DNSRecord → List String → List MutCall × Option String × List String
  | [], desired => ([], none, desired)
  | r :: rest, desired =>
    if desired.contains r.value then
      if r.ttl != ttl || r.active != active || r.name != dnsName then
        let r2 := { r with ttl := ttl, active := active, name := dnsName }
        match resp (.updateRec r2) with
        | some e => ([MutCall.updateRec r2], some e, desired)
        | none =>
          let res := updateExistingLoop resp dnsName ttl active rest
            (desired.erase r.value)
          (MutCall.updateRec r2 :: res.1, res.2.1, res.2.2)
      else
        updateExistingLoop resp dnsName ttl active rest (desired.erase r.value)
    else
      let del := deleteDNSRecord resp r
      match del.2 with
      | some e => (del.1, some e, desired)
      | none =>
        let res := updateExistingLoop resp dnsName ttl active rest desired
        (del.1 ++ res.1, res.2.1, res.2.2)

/-- Step 2 of the update diff: create every still-missing desired
value. -/
def createMissingLoop (p : Provider) (resp : Resp) (dnsName recordType : String)
    (ttl : Int) : List String → List MutCall × Option String
  | [] => ([], none)
  | v :: vs =>
    let res := createDNSRecord p resp dnsName recordType v ttl
    match res.2 with
    | some e => (res.1, some e)
    | none =>
      let rest := createMissingLoop p resp dnsName recordType ttl vs
      (res.1 ++ rest.1, rest.2)

/-- The body of the processUpdateActions loop for one new endpoint:
private-endpoint skip in production, ownership gate via the TXT index
(keyed by the stripped endpoint name), then the value-set diff of
section steps 1 and 2.  The desired set is the Go set of formatted
targets, modelled as a deduplicated list. -/
def processUpdateEndpoint (p : Provider) (env : String) (resp : Resp)
    (allRecords : List DNSRecord) (newEp : Endpoint) :
    List MutCall × Option String :=
  let dnsName := ensureFullDNSName p (stripTrailingDot newEp.dnsName)
  if isProduction env && isPrivateEndpoint newEp then ([], none)
  else
    let ttl := if newEp.recordTTL > 0 then newEp.recordTTL else p.ttl
    match txtLookup allRecords (stripTrailingDot newEp.dnsName) with
    | none => ([], none)
    | some txtVal =>
      if !isOwnedByExternalDNS txtVal p.owner then ([], none)
      else
        let existing := findMatchingRecords allRecords dnsName newEp.recordType
        let current := lastPerValue existing
        let desired :=
          (newEp.targets.map (fun t => formatRecordValue t newEp.recordType)).dedup
        let step1 := updateExistingLoop resp dnsName ttl (!p.disableProtection)
          current desired
        match step1.2.1 with
        | some e => (step1.1, some e)
        | none =>
          let step2 := createMissingLoop p resp dnsName newEp.recordType ttl
            step1.2.2
          (step1.1 ++ step2.1, step2.2)

/-- The endpoint loop of processUpdateActions over the new endpoints
(the old endpoints are not consulted there). -/
def processUpdateList (p : Provider) (env : String) (resp : Resp)
    (allRecords : List DNSRecord) : List Endpoint → List MutCall × Option String
  | [] => ([], none)
  | ep :: eps =>
    let res := processUpdateEndpoint p env resp allRecords ep
    match res.2 with
    | some e => (res.1, some e)
    | none =>
      let rest := processUpdateList p env resp allRecords eps
      (res.1 ++ rest.1, rest.2)

/-- Embeds processUpdateActions: the old and new endpoint lists must
have equal length, then only the new endpoints drive the diff against
the backend snapshot. -/
def processUpdateActions (p : Provider) (env : String) (resp : Resp)
    (allRecords : List DNSRecord) (oldEndpoints newEndpoints : List Endpoint) :
    List MutCall × Option String :=
  if oldEndpoints.length != newEndpoints.length then
    ([], some "mismatched endpoint lists")
  else processUpdateList p env resp allRecords newEndpoints

/-! ## Delete path (processDeleteActions) -/

/-- The record loop of processDeleteActions: delete every matching
record whose value is among the formatted targets. -/
def deleteMatchingLoop (resp : Resp) (targetsToDelete : List String) :
    List DNSRecord → List MutCall × Option String
  | [] => ([], none)
  | r :: rest =>
    if !targetsToDelete.contains r.value then
      deleteMatchingLoop resp targetsToDelete rest
    else
      let del := deleteDNSRecord resp r
      match del.2 with
      | some e => (del.1, some e)
      | none =>
        let res := deleteMatchingLoop resp targetsToDelete rest
        (del.1 ++ res.1, res.2)

/-- The body of the processDeleteActions loop for one endpoint:
private-endpoint skip in production, ownership gate, then deletion of
the matching records whose values are targeted. -/
def processDeleteEndpoint (p : Provider) (env : String) (resp : Resp)
    (allRecords : List DNSRecord) (ep : Endpoint) :
    List MutCall × Option String :=
  let dnsName := ensureFullDNSName p (stripTrailingDot ep.dnsName)
  if isProduction env && isPrivateEndpoint ep then ([], none)
  else
    match txtLookup allRecords (stripTrailingDot ep.dnsName) with
    | none => ([], none)
    | some txtVal =>
      if !isOwnedByExternalDNS txtVal p.owner then ([], none)
      else
        let matching := findMatchingRecords allRecords dnsName ep.recordType
        if matching.isEmpty then ([], none)
        else
          let targetsToDelete :=
            ep.targets.map (fun t => formatRecordValue t ep.recordType)
          deleteMatchingLoop resp targetsToDelete matching

/-- Embeds processDeleteActions: process each endpoint in order, first
propagated error stops the loop. -/
def processDeleteActions (p : Provider) (env : String) (resp : Resp)
    (allRecords : List DNSRecord) : List Endpoint → List MutCall × Option String
  | [] => ([], none)
  | ep :: eps =>
    let res := processDeleteEndpoint p env resp allRecords ep
    match res.2 with
    | some e => (res.1, some e)
    | none =>
      let rest := processDeleteActions p env resp allRecords eps
      (res.1 ++ rest.1, rest.2)

/-! ## Task builder and executor (ApplyChangesWithWorkers) -/

/-- The change batch handed to ApplyChanges. -/
structure Changes where
  create : List Endpoint
  updateOld : List Endpoint
  updateNew : List Endpoint
  delete : List Endpoint
deriving DecidableEq

/-- The action tag of a changeTask. -/
inductive ChangeAction where
  | create
  | update
  | delete
deriving DecidableEq

/-- Embeds changeTask: action, new endpoint and (for updates) the paired
old endpoint. -/
structure ChangeTask where
  action : ChangeAction
  change : Endpoint
  oldChange : Option Endpoint
deriving DecidableEq

/-- Embeds the task-building section of ApplyChangesWithWorkers: creates,
then updates paired index-wise with the old endpoints, then deletes. -/
def buildTasks (changes : Changes) : List ChangeTask :=
  changes.create.map (fun e => ⟨ChangeAction.create, e, none⟩) ++
    (changes.updateNew.zip changes.updateOld).map
      (fun x => ⟨ChangeAction.update, x.1, some x.2⟩) ++
    changes.delete.map (fun e => ⟨ChangeAction.delete, e, none⟩)

/-- Embeds the worker body for one task (non-dry-run): dispatch to the
per-action processor with singleton lists. -/
def runTask (p : Provider) (env : String) (resp : Resp)
    (allRecords : List DNSRecord) (task : ChangeTask) :
    List MutCall × Option String :=
  match task.action with
  | .create => processCreateActions p env resp [task.change]
  | .update =>
    processUpdateActions p env resp allRecords
      (match task.oldChange with | some o => [o] | none => []) [task.change]
  | .delete => processDeleteActions p env resp allRecords [task.change]

/-- Linearization of processTasksWithWorkers: tasks are processed in
order, each result collected; the first non-nil error becomes the
definitive failure and stops dispatch.  Dry-run bypasses the backend
call of every task and reports success. -/
def processTasksSeq (p : Provider) (env : String) (resp : Resp)
    (allRecords : List DNSRecord) : List ChangeTask → List MutCall × Option String
  | [] => ([], none)
  | t :: ts =>
    if p.dryRun then processTasksSeq p env resp allRecords ts
    else
      let res := runTask p env resp allRecords t
      match res.2 with
      | some e => (res.1, some e)
      | none =>
        let rest := processTasksSeq p env resp allRecords ts
        (res.1 ++ rest.1, rest.2)

/-- The distinguishable outcomes of ApplyChangesWithWorkers. -/
inductive ApplyError where
  | updateSlicesMismatch
  | domainNotFound
  | taskError (e : String)
deriving DecidableEq

/-- The selected domain (SelectDomain is an external collaborator of the
core per the spec; its outcome is passed in). -/
structure DomainInfo where
  name : String
deriving DecidableEq

/-- Embeds ApplyChangesWithWorkers: validate the update pair lists,
return early on an empty batch, select the domain, build the tasks and
process them.  The domain-selection outcome is a parameter; on its
failure the error is returned before any task runs. -/
def applyChangesWithWorkers (p : Provider) (env : String) (resp : Resp)
    (selectedDomain : Option DomainInfo) (allRecords : List DNSRecord)
    (changes : Changes) : List MutCall × Option ApplyError :=
  if changes.updateOld.length != changes.updateNew.length then
    ([], some ApplyError.updateSlicesMismatch)
  else if changes.create.isEmpty && changes.updateNew.isEmpty &&
      changes.delete.isEmpty then
    ([], none)
  else
    match selectedDomain with
    | none => ([], some ApplyError.domainNotFound)
    | some d =>
      let p2 := { p with domainName := d.name }
      let res := processTasksSeq p2 env resp allRecords (buildTasks changes)
      (res.1, res.2.map ApplyError.taskError)

/-- Backend state reached by replaying the create calls of a trace:
each successfully created record is appended to the domain snapshot in
call order.  (The round-trip theorem only replays traces made of create
calls.) -/
def createdRecords : List MutCall → List DNSRecord
  | [] => []
  | .createRec r :: rest => r :: createdRecords rest
  | .updateRec _ :: rest => createdRecords rest
  | .deleteRec _ :: rest => createdRecords rest

/-! ## Helper lemmas on the substring check -/

theorem isPrefixOf_append_self (l t : List Char) : l.isPrefixOf (l ++ t) = true := by
  induction l with
  | nil => simp [List.isPrefixOf]
  | cons c cs ih => simp [List.isPrefixOf, ih]

theorem listHasInfix_of_isPrefixOf {s pat : List Char} (h : pat.isPrefixOf s = true) :
    listHasInfix s pat = true := by
  cases s with
  | nil =>
    cases pat with
    | nil => rfl
    | cons c cs => simp [List.isPrefixOf] at h
  | cons c t => simp [listHasInfix, h]

theorem listHasInfix_append_left (pre : List Char) {s pat : List Char}
    (h : listHasInfix s pat = true) : listHasInfix (pre ++ s) pat = true := by
  induction pre with
  | nil => exact h
  | cons c cs ih => simp [listHasInfix, ih]

theorem containsSubstr_append_middle (pre pat suf : String) :
    containsSubstr (pre ++ (pat ++ suf)) pat = true := by
  unfold containsSubstr
  have hsplit : (pre ++ (pat ++ suf)).toList = pre.toList ++ (pat.toList ++ suf.toList) := by
    simp [String.toList]
  rw [hsplit]
  exact listHasInfix_append_left _ (listHasInfix_of_isPrefixOf (isPrefixOf_append_self _ _))

/-! ## Claim C3: the ownership predicate -/

/-- Claim C3, counterexample: the source predicate matches the owner by
substring containment, not exact equality.  For configured owner "a",
a token whose owner identifier is "ab" is accepted by the code although
the spec-modelled exact check rejects it (and a missing or malformed
token is a separate skip in the callers, see C1). -/
theorem exact_owner_match_counterexample :
    specTokenValid "heritage=external-dns,external-dns/owner=ab" "a" = false ∧
    isOwnedByExternalDNS "heritage=external-dns,external-dns/owner=ab" "a" = true := by
  decide

/-- Claim C3, amended: the predicate checks that the heritage marker and
the owner fragment built from the configured owner occur as substrings
of the token value.  Every ownership token this instance writes (exact
owner identifier, optional resource tag) is therefore recognized, but
exact owner matching does not hold: owner identifiers extending the
configured one are accepted as well (see the counterexample). -/
theorem toList_append (a b : String) : (a ++ b).toList = a.toList ++ b.toList := by
  simp [String.toList, String.data_append]

theorem own_tokens_recognized (owner : String) (resource : Option String) :
    isOwnedByExternalDNS (ownershipTXTValue owner resource) owner = true := by
  have h1 : ("heritage=external-dns,external-dns/owner=" : String).toList =
      "heritage=external-dns".toList ++ ",external-dns/owner=".toList := by decide
  have h2 : ("heritage=external-dns,external-dns/owner=" : String).toList =
      "heritage=external-dns,".toList ++ "external-dns/owner=".toList := by decide
  unfold isOwnedByExternalDNS ownershipTXTValue containsSubstr
  rw [Bool.and_eq_true]
  constructor
  · rw [toList_append, toList_append, h1, List.append_assoc, List.append_assoc]
    exact listHasInfix_of_isPrefixOf (isPrefixOf_append_self _ _)
  · rw [toList_append, toList_append, h2, toList_append, List.append_assoc,
      List.append_assoc, ← List.append_assoc ("external-dns/owner=".toList)]
    exact listHasInfix_append_left _
      (listHasInfix_of_isPrefixOf (isPrefixOf_append_self _ _))

/-! ## Claim C9: old update endpoints are informational only -/

/-- Claim C9: two update inputs sharing the new endpoints, the backend
snapshot and the length of the old endpoint list produce identical
backend calls and an identical result — the contents of the old
endpoints never influence the diffing outcome. -/
theorem old_endpoints_informational (p : Provider) (env : String) (resp : Resp)
    (allRecords : List DNSRecord) (old1 old2 newEps : List Endpoint)
    (hlen : old1.length = old2.length) :
    processUpdateActions p env resp allRecords old1 newEps =
      processUpdateActions p env resp allRecords old2 newEps := by
  unfold processUpdateActions
  rw [hlen]

/-- Claim C9, witness: two old endpoint lists of equal length but
different contents lead to the same outcome on a concrete update. -/
theorem old_endpoints_informational_witness :
    ([⟨"a.example.com", "A", ["1.1.1.1"], 0, none⟩] : List Endpoint).length =
      ([⟨"b.example.com", "CNAME", ["x.y"], 5, some "r"⟩] : List Endpoint).length ∧
    processUpdateActions ⟨"example.com", 300, "owner1", false, false⟩ "dev" respOk []
        [⟨"a.example.com", "A", ["1.1.1.1"], 0, none⟩]
        [⟨"c.example.com", "A", ["2.2.2.2"], 0, none⟩] =
      processUpdateActions ⟨"example.com", 300, "owner1", false, false⟩ "dev" respOk []
        [⟨"b.example.com", "CNAME", ["x.y"], 5, some "r"⟩]
        [⟨"c.example.com", "A", ["2.2.2.2"], 0, none⟩] :=
  ⟨rfl, old_endpoints_informational _ _ _ _ _ _ _ rfl⟩

/-! ## Claim C6: mismatched update slice lengths -/

/-- Claim C6: a batch whose updateOld and updateNew lists have different
lengths is rejected with the validation error and zero backend calls,
whatever the domain-selection outcome (the validation runs first). -/
theorem mismatched_update_slices_rejected (p : Provider) (env : String) (resp : Resp)
    (selectedDomain : Option DomainInfo) (allRecords : List DNSRecord)
    (changes : Changes)
    (hlen : changes.updateOld.length ≠ changes.updateNew.length) :
    applyChangesWithWorkers p env resp selectedDomain allRecords changes =
      ([], some ApplyError.updateSlicesMismatch) := by
  have h : (changes.updateOld.length != changes.updateNew.length) = true := by
    simpa [bne_iff_ne] using hlen
  unfold applyChangesWithWorkers
  rw [h]
  simp

/-- Claim C6, witness: updateOld of length 2 against updateNew of
length 1, with a successful domain lookup available, still yields the
validation error and an empty trace. -/
theorem mismatched_update_slices_rejected_witness :
    (⟨[], [⟨"u1.example.com", "A", ["1.1.1.1"], 0, none⟩,
        ⟨"u2.example.com", "A", ["1.1.1.2"], 0, none⟩],
      [⟨"u1.example.com", "A", ["1.1.1.3"], 0, none⟩], []⟩ : Changes).updateOld.length ≠
      (⟨[], [⟨"u1.example.com", "A", ["1.1.1.1"], 0, none⟩,
          ⟨"u2.example.com", "A", ["1.1.1.2"], 0, none⟩],
        [⟨"u1.example.com", "A", ["1.1.1.3"], 0, none⟩], []⟩ : Changes).updateNew.length ∧
    applyChangesWithWorkers ⟨"example.com", 300, "owner1", false, false⟩ "dev" respOk
        (some ⟨"example.com"⟩) []
        ⟨[], [⟨"u1.example.com", "A", ["1.1.1.1"], 0, none⟩,
            ⟨"u2.example.com", "A", ["1.1.1.2"], 0, none⟩],
          [⟨"u1.example.com", "A", ["1.1.1.3"], 0, none⟩], []⟩ =
      ([], some ApplyError.updateSlicesMismatch) :=
  ⟨by decide, mismatched_update_slices_rejected _ _ _ _ _ _ (by decide)⟩

/-! ## Claim C2: private-target safety policy -/

/-- Claim C2, counterexample: in a production-like environment a create
task with one private target and one public target is skipped as a
whole — the backend receives zero calls, so the mutation for the
non-private value "8.8.8.8" does not proceed, contradicting the claimed
per-value skip. -/
theorem private_skip_not_per_value_counterexample :
    isProduction "prod" = true ∧
    isPrivateIP "10.0.0.1" = true ∧
    isPrivateIP "8.8.8.8" = false ∧
    processCreateActions ⟨"example.com", 300, "owner1", false, false⟩ "prod" respOk
      [⟨"a.example.com", "A", ["10.0.0.1", "8.8.8.8"], 0, none⟩] = ([], none) := by
  decide

/-- Claim C2, amended: in a production-like environment, a create,
update or delete task any of whose targets parses as a private-range or
loopback address is skipped entirely — zero backend calls are issued for
the whole task, including its non-private values, and no error is
propagated. -/
theorem private_endpoint_task_skipped (p : Provider) (env : String) (resp : Resp)
    (allRecords : List DNSRecord) (ep : Endpoint)
    (hprod : isProduction env = true) (hpriv : isPrivateEndpoint ep = true) :
    processCreateEndpoint p env resp ep = ([], none) ∧
    processUpdateEndpoint p env resp allRecords ep = ([], none) ∧
    processDeleteEndpoint p env resp allRecords ep = ([], none) := by
  unfold processCreateEndpoint processUpdateEndpoint processDeleteEndpoint
  rw [hprod, hpriv]
  simp

/-- Claim C2 (amended), witness: a concrete production-environment task
with a loopback target is skipped on all three paths. -/
theorem private_endpoint_task_skipped_witness :
    isProduction "staging" = true ∧
    isPrivateEndpoint ⟨"a.example.com", "A", ["127.0.0.1"], 0, none⟩ = true ∧
    processCreateEndpoint ⟨"example.com", 300, "owner1", false, false⟩ "staging" respOk
      ⟨"a.example.com", "A", ["127.0.0.1"], 0, none⟩ = ([], none) :=
  ⟨by decide, by decide,
    (private_endpoint_task_skipped _ _ respOk [] _ (by decide) (by decide)).1⟩

/-! ## Claim C1: ownership gating of the mutation paths -/

/-- Claim C1, counterexample: the create path is not ownership-gated.
With an empty backend snapshot no name has an ownership token, yet a
create task issues backend calls for its name (it writes the ownership
token itself). -/
theorem create_without_ownership_counterexample :
    txtLookup [] (stripTrailingDot "a.example.com") = none ∧
    (processCreateActions ⟨"example.com", 300, "owner1", false, false⟩ "dev" respOk
        [⟨"a.example.com", "A", ["1.2.3.4"], 0, none⟩]).1 ≠ [] := by
  decide

/-- Claim C1, amended: for every name without a TXT ownership token
accepted for the configured owner, the update and delete paths skip the
endpoint silently with zero backend calls; the create path is not
ownership-gated and issues its calls regardless. -/
theorem ownership_gate_on_update_delete (p : Provider) (env : String) (resp : Resp)
    (allRecords : List DNSRecord) (ep : Endpoint)
    (hown : ∀ v, txtLookup allRecords (stripTrailingDot ep.dnsName) = some v →
      isOwnedByExternalDNS v p.owner = false) :
    processUpdateEndpoint p env resp allRecords ep = ([], none) ∧
    processDeleteEndpoint p env resp allRecords ep = ([], none) := by
  unfold processUpdateEndpoint processDeleteEndpoint
  cases hskip : (isProduction env && isPrivateEndpoint ep) with
  | true => simp
  | false =>
    simp only [Bool.false_eq_true, if_false]
    cases htxt : txtLookup allRecords (stripTrailingDot ep.dnsName) with
    | none => simp
    | some v => simp [hown v htxt]

/-- Discharges a hypothesis quantified over the payload of a concrete
Option value. -/
theorem forall_some_imp {α : Type} (a : α) {C : Option α} {P : α → Prop}
    (hC : C = some a) (hP : P a) : ∀ v, C = some v → P v := by
  intro v hv
  rw [hC] at hv
  cases hv
  exact hP

/-- Claim C1 (amended), witness: a snapshot holding a token for a
different owner makes a concrete update and a concrete delete produce
zero backend calls. -/
theorem ownership_gate_on_update_delete_witness :
    isOwnedByExternalDNS "heritage=external-dns,external-dns/owner=other" "owner1" =
      false ∧
    processUpdateEndpoint ⟨"example.com", 300, "owner1", false, false⟩ "dev" respOk
        [⟨"a.example.com", "TXT", "heritage=external-dns,external-dns/owner=other",
          300, true, true⟩]
        ⟨"a.example.com", "A", ["1.2.3.4"], 0, none⟩ = ([], none) ∧
    processDeleteEndpoint ⟨"example.com", 300, "owner1", false, false⟩ "dev" respOk
        [⟨"a.example.com", "TXT", "heritage=external-dns,external-dns/owner=other",
          300, true, true⟩]
        ⟨"a.example.com", "A", ["1.2.3.4"], 0, none⟩ = ([], none) :=
  ⟨by decide,
    ownership_gate_on_update_delete _ _ _ _ _
      (forall_some_imp "heritage=external-dns,external-dns/owner=other"
        (by decide) (by decide))⟩

/-! ## Claim C7: duplicate-value create errors are tolerated -/

theorem createDNSRecord_err_none (p : Provider) (resp : Resp)
    (dnsName recordType value : String) (ttl : Int)
    (hresp : ∀ r : DNSRecord, resp (MutCall.createRec r) = none ∨
      ∃ e, resp (MutCall.createRec r) = some e ∧ containsSubstr e dupErrText = true) :
    (createDNSRecord p resp dnsName recordType value ttl).2 = none := by
  simp only [createDNSRecord]
  rcases hresp (mkDNSRecord p dnsName recordType value ttl) with h0 | ⟨e, he, hdup⟩
  · rw [h0]
  · rw [he]
    simp [hdup]

theorem createTargets_err_none (p : Provider) (resp : Resp)
    (dnsName recordType : String) (ttl : Int) (targets : List String)
    (hresp : ∀ r : DNSRecord, resp (MutCall.createRec r) = none ∨
      ∃ e, resp (MutCall.createRec r) = some e ∧ containsSubstr e dupErrText = true) :
    (createTargets p resp dnsName recordType ttl targets).2 = none := by
  induction targets with
  | nil => rfl
  | cons t ts ih =>
    simp only [createTargets]
    rw [createDNSRecord_err_none p resp dnsName recordType
      (formatRecordValue t recordType) ttl hresp]
    simpa using ih

theorem processCreateEndpoint_err_none (p : Provider) (env : String) (resp : Resp)
    (ep : Endpoint)
    (hresp : ∀ r : DNSRecord, resp (MutCall.createRec r) = none ∨
      ∃ e, resp (MutCall.createRec r) = some e ∧ containsSubstr e dupErrText = true) :
    (processCreateEndpoint p env resp ep).2 = none := by
  simp only [processCreateEndpoint]
  cases hskip : (isProduction env && isPrivateEndpoint ep) with
  | true => simp [hskip]
  | false =>
    simp only [hskip, Bool.false_eq_true, if_false]
    rw [createTargets_err_none p resp _ ep.recordType _ ep.targets hresp]
    cases htxt : (ep.recordType != "TXT") with
    | true =>
      simp only [htxt, if_true]
      exact createDNSRecord_err_none p resp _ "TXT" _ _ hresp
    | false => simp [htxt]

theorem processCreateActions_err_none (p : Provider) (env : String) (resp : Resp)
    (eps : List Endpoint)
    (hresp : ∀ r : DNSRecord, resp (MutCall.createRec r) = none ∨
      ∃ e, resp (MutCall.createRec r) = some e ∧ containsSubstr e dupErrText = true) :
    (processCreateActions p env resp eps).2 = none := by
  induction eps with
  | nil => rfl
  | cons ep eps ih =>
    simp only [processCreateActions]
    rw [processCreateEndpoint_err_none p env resp ep hresp]
    simpa using ih

theorem processTasksSeq_creates_err_none (p : Provider) (env : String) (resp : Resp)
    (allRecords : List DNSRecord) (eps : List Endpoint)
    (hresp : ∀ r : DNSRecord, resp (MutCall.createRec r) = none ∨
      ∃ e, resp (MutCall.createRec r) = some e ∧ containsSubstr e dupErrText = true) :
    (processTasksSeq p env resp allRecords
      (eps.map (fun e => ⟨ChangeAction.create, e, none⟩))).2 = none := by
  induction eps with
  | nil => rfl
  | cons ep eps ih =>
    simp only [List.map_cons, processTasksSeq]
    cases hdry : p.dryRun with
    | true => simpa [hdry] using ih
    | false =>
      simp only [hdry, Bool.false_eq_true, if_false]
      have hrun : (runTask p env resp allRecords ⟨ChangeAction.create, ep, none⟩).2 = none :=
        processCreateActions_err_none p env resp [ep] hresp
      rw [hrun]
      simpa using ih

/-- Claim C7: in a batch with only create tasks, a backend create that
fails with the duplicate-value condition resolves as success at the call
level, and the batch as a whole succeeds when no task fails otherwise
(every create response is either success or a duplicate-value error). -/
theorem duplicate_create_resolves_success (p : Provider) (env : String) (resp : Resp)
    (d : DomainInfo) (allRecords : List DNSRecord) (changes : Changes)
    (hupd : changes.updateOld = [] ∧ changes.updateNew = [] ∧ changes.delete = [])
    (hresp : ∀ r : DNSRecord, resp (MutCall.createRec r) = none ∨
      ∃ e, resp (MutCall.createRec r) = some e ∧ containsSubstr e dupErrText = true) :
    (∀ dnsName recordType value ttl,
        (createDNSRecord p resp dnsName recordType value ttl).2 = none) ∧
    (applyChangesWithWorkers p env resp (some d) allRecords changes).2 = none := by
  obtain ⟨h1, h2, h3⟩ := hupd
  constructor
  · intro dnsName recordType value ttl
    exact createDNSRecord_err_none p resp dnsName recordType value ttl hresp
  · unfold applyChangesWithWorkers
    rw [h1, h2, h3]
    simp only [List.length_nil, bne_self_eq_false, Bool.false_eq_true, if_false,
      List.isEmpty_nil, Bool.and_true]
    cases hemp : changes.create.isEmpty with
    | true => simp [hemp]
    | false =>
      simp only [hemp, Bool.false_eq_true, if_false]
      have hbt : buildTasks changes =
          changes.create.map (fun e => ⟨ChangeAction.create, e, none⟩) := by
        unfold buildTasks
        rw [h2, h3]
        simp
      rw [hbt, processTasksSeq_creates_err_none _ env resp allRecords
        changes.create hresp]
      rfl

/-- Claim C7, witness: a backend answering every create with the
duplicate-value error text still lets a concrete one-create batch
succeed, and the individual create call resolves without error. -/
theorem duplicate_create_resolves_success_witness :
    (createDNSRecord ⟨"", 300, "owner1", false, false⟩
        (fun c => match c with
          | MutCall.createRec _ => some dupErrText
          | _ => none)
        "a.example.com" "A" "1.2.3.4" 300).2 = none ∧
    (applyChangesWithWorkers ⟨"", 300, "owner1", false, false⟩ "dev"
        (fun c => match c with
          | MutCall.createRec _ => some dupErrText
          | _ => none)
        (some ⟨"example.com"⟩) []
        ⟨[⟨"a.example.com", "A", ["1.2.3.4"], 0, none⟩], [], [], []⟩).2 = none :=
  ⟨(duplicate_create_resolves_success ⟨"", 300, "owner1", false, false⟩ "dev" _
      ⟨"example.com"⟩ [] ⟨[⟨"a.example.com", "A", ["1.2.3.4"], 0, none⟩], [], [], []⟩
      ⟨rfl, rfl, rfl⟩
      (fun r => Or.inr ⟨dupErrText, rfl, by decide⟩)).1 "a.example.com" "A" "1.2.3.4" 300,
    (duplicate_create_resolves_success ⟨"", 300, "owner1", false, false⟩ "dev" _
      ⟨"example.com"⟩ [] ⟨[⟨"a.example.com", "A", ["1.2.3.4"], 0, none⟩], [], [], []⟩
      ⟨rfl, rfl, rfl⟩
      (fun r => Or.inr ⟨dupErrText, rfl, by decide⟩)).2⟩

/-! ## Claim C10: idempotence of the TXT value formatter -/

theorem contains_false_not_mem {cut : List Char} {y : Char}
    (h : cut.contains y = false) : y ∉ cut := by
  intro hm
  have ht : cut.contains y = true := by
    simpa [List.elem_iff] using hm
  rw [h] at ht
  cases ht

theorem not_cut_iff (x : Char) :
    txtCutset.contains x = false ↔ (x ≠ '"' ∧ x ≠ '\'') := by
  constructor
  · intro h
    constructor <;> intro he <;> subst he <;> simp [txtCutset] at h
  · intro h
    simp [txtCutset, h.1, h.2]

theorem mem_of_mem_removeChar {x c : Char} {l : List Char}
    (h : x ∈ removeChar c l) : x ∈ l := by
  unfold removeChar at h
  exact (List.mem_filter.mp h).1

theorem not_mem_removeChar (c : Char) (l : List Char) : c ∉ removeChar c l := by
  intro h
  unfold removeChar at h
  have := (List.mem_filter.mp h).2
  simp at this

theorem removeChar_eq_self {c : Char} {l : List Char} (h : c ∉ l) :
    removeChar c l = l := by
  unfold removeChar
  induction l with
  | nil => rfl
  | cons y t ih =>
    have hy : y ≠ c := fun he => h (he ▸ List.mem_cons_self y t)
    rw [List.filter_cons_of_pos (by simp [hy])]
    rw [ih (fun hm => h (List.mem_cons_of_mem y hm))]

theorem not_mem_replaceChar_self {c r : Char} (hcr : c ≠ r) (l : List Char) :
    c ∉ replaceChar c r l := by
  intro h
  unfold replaceChar at h
  obtain ⟨y, _, hy⟩ := List.mem_map.mp h
  by_cases hyc : (y == c) = true
  · rw [if_pos hyc] at hy
    exact hcr hy.symm
  · rw [if_neg hyc] at hy
    exact hyc (by simp [hy])

theorem not_mem_replaceChar_of {x c r : Char} {l : List Char}
    (hx : x ∉ l) (hxr : x ≠ r) : x ∉ replaceChar c r l := by
  intro h
  unfold replaceChar at h
  obtain ⟨y, hyl, hy⟩ := List.mem_map.mp h
  by_cases hyc : (y == c) = true
  · rw [if_pos hyc] at hy
    exact hxr hy.symm
  · rw [if_neg hyc] at hy
    exact hx (hy ▸ hyl)

theorem replaceChar_eq_self {c r : Char} {l : List Char} (h : c ∉ l) :
    replaceChar c r l = l := by
  unfold replaceChar
  induction l with
  | nil => rfl
  | cons y t ih =>
    have hy : y ≠ c := fun he => h (he ▸ List.mem_cons_self y t)
    have hyc : (y == c) = false := by simp [hy]
    simp only [List.map_cons, hyc, Bool.false_eq_true, if_false]
    rw [ih (fun hm => h (List.mem_cons_of_mem y hm))]

theorem removeChar_reverse (c : Char) (l : List Char) :
    removeChar c l.reverse = (removeChar c l).reverse := by
  unfold removeChar
  rw [List.filter_reverse]

theorem replaceChar_reverse (c r : Char) (l : List Char) :
    replaceChar c r l.reverse = (replaceChar c r l).reverse := by
  unfold replaceChar
  rw [List.map_reverse]

theorem head_dropWhile_not {p : Char → Bool} {l : List Char} :
    ∀ x, (l.dropWhile p).head? = some x → p x = false := by
  induction l with
  | nil => intro x h; simp [List.dropWhile] at h
  | cons y t ih =>
    intro x h
    by_cases hy : p y = true
    · rw [List.dropWhile_cons_of_pos hy] at h
      exact ih x h
    · rw [List.dropWhile_cons_of_neg hy] at h
      have : y = x := by simpa using h
      subst this
      simpa using hy

theorem getLast_dropWhile_of_ne_nil {p : Char → Bool} {m : List Char}
    (h : m.dropWhile p ≠ []) : (m.dropWhile p).getLast? = m.getLast? := by
  induction m with
  | nil => simp [List.dropWhile] at h
  | cons y t ih =>
    by_cases hy : p y = true
    · rw [List.dropWhile_cons_of_pos hy] at h ⊢
      rw [ih h]
      cases t with
      | nil => simp [List.dropWhile] at h
      | cons z zs => rw [List.getLast?_cons_cons]
    · rw [List.dropWhile_cons_of_neg hy]

theorem trimCutset_eq_self {cut : List Char} {m : List Char}
    (hh : ∀ x, m.head? = some x → cut.contains x = false)
    (hl : ∀ x, m.getLast? = some x → cut.contains x = false) :
    trimCutset cut m = m := by
  unfold trimCutset
  have h1 : m.dropWhile (fun c => cut.contains c) = m := by
    cases m with
    | nil => rfl
    | cons y t =>
      rw [List.dropWhile_cons_of_neg (by simp [contains_false_not_mem (hh y rfl)])]
  rw [h1]
  have h2 : m.reverse.dropWhile (fun c => cut.contains c) = m.reverse := by
    cases hm : m.reverse with
    | nil => rfl
    | cons y t =>
      have hy : m.getLast? = some y := by
        rw [← List.head?_reverse, hm]
        rfl
      rw [List.dropWhile_cons_of_neg (by simp [contains_false_not_mem (hl y hy)])]
  rw [h2, List.reverse_reverse]

theorem trimCutset_head (cut : List Char) (l : List Char) :
    ∀ x, (trimCutset cut l).head? = some x → cut.contains x = false := by
  intro x hx
  unfold trimCutset at hx
  rw [List.head?_reverse] at hx
  by_cases hB : ((l.dropWhile (fun c => cut.contains c)).reverse.dropWhile
      (fun c => cut.contains c)) = []
  · rw [hB] at hx
    simp at hx
  · rw [getLast_dropWhile_of_ne_nil hB, List.getLast?_reverse] at hx
    exact head_dropWhile_not x hx

theorem trimCutset_getLast (cut : List Char) (l : List Char) :
    ∀ x, (trimCutset cut l).getLast? = some x → cut.contains x = false := by
  intro x hx
  unfold trimCutset at hx
  rw [List.getLast?_reverse] at hx
  exact head_dropWhile_not x hx

theorem head_removeChar {c : Char} {m : List Char}
    (h : ∀ x, m.head? = some x → (x == c) = false) :
    (removeChar c m).head? = m.head? := by
  cases m with
  | nil => rfl
  | cons y t =>
    unfold removeChar
    rw [List.filter_cons_of_pos (by simp [bne, h y rfl])]
    rfl

theorem head_replaceChar (c r : Char) (m : List Char) :
    (replaceChar c r m).head? = m.head?.map (fun x => if x == c then r else x) := by
  cases m <;> rfl

theorem removeChar_head_not_cut {m : List Char}
    (hh : ∀ x, m.head? = some x → txtCutset.contains x = false) :
    ∀ x, (removeChar '"' m).head? = some x → txtCutset.contains x = false := by
  intro x hx
  rw [head_removeChar] at hx
  · exact hh x hx
  · intro y hy
    have hne := (not_cut_iff y).mp (hh y hy)
    simpa using hne.1

theorem replaceChar_head_not_cut {c : Char} {m : List Char}
    (hh : ∀ x, m.head? = some x → txtCutset.contains x = false) :
    ∀ x, (replaceChar c ' ' m).head? = some x → txtCutset.contains x = false := by
  intro x hx
  rw [head_replaceChar] at hx
  cases hm : m.head? with
  | none => rw [hm] at hx; cases hx
  | some y =>
    rw [hm] at hx
    simp only [Option.map_some'] at hx
    have hx2 : (if (y == c) = true then ' ' else y) = x := by
      simpa using hx
    by_cases hyc : (y == c) = true
    · rw [if_pos hyc] at hx2
      rw [← hx2]
      decide
    · rw [if_neg hyc] at hx2
      exact hx2 ▸ hh y hm

theorem formatTXTList_head_not_cut (l : List Char) :
    ∀ x, (formatTXTList l).head? = some x → txtCutset.contains x = false := by
  unfold formatTXTList
  apply replaceChar_head_not_cut
  apply replaceChar_head_not_cut
  apply replaceChar_head_not_cut
  apply removeChar_head_not_cut
  exact trimCutset_head txtCutset l

theorem formatTXTList_getLast_not_cut (l : List Char) :
    ∀ x, (formatTXTList l).getLast? = some x → txtCutset.contains x = false := by
  intro x hx
  rw [← List.head?_reverse] at hx
  have hrev : (formatTXTList l).reverse =
      replaceChar '\t' ' ' (replaceChar '\r' ' ' (replaceChar '\n' ' '
        (removeChar '"' ((trimCutset txtCutset l).reverse)))) := by
    unfold formatTXTList
    rw [← replaceChar_reverse, ← replaceChar_reverse, ← replaceChar_reverse,
      ← removeChar_reverse]
  rw [hrev] at hx
  refine replaceChar_head_not_cut (replaceChar_head_not_cut (replaceChar_head_not_cut
    (removeChar_head_not_cut ?_))) x hx
  intro y hy
  rw [List.head?_reverse] at hy
  exact trimCutset_getLast txtCutset l y hy

theorem quote_not_mem_formatTXTList (l : List Char) : '"' ∉ formatTXTList l := by
  unfold formatTXTList
  apply not_mem_replaceChar_of
  · apply not_mem_replaceChar_of
    · apply not_mem_replaceChar_of
      · exact not_mem_removeChar _ _
      · decide
    · decide
  · decide

theorem newline_not_mem_formatTXTList (l : List Char) : '\n' ∉ formatTXTList l := by
  unfold formatTXTList
  apply not_mem_replaceChar_of
  · apply not_mem_replaceChar_of
    · exact not_mem_replaceChar_self (by decide) _
    · decide
  · decide

theorem cr_not_mem_formatTXTList (l : List Char) : '\r' ∉ formatTXTList l := by
  unfold formatTXTList
  apply not_mem_replaceChar_of
  · exact not_mem_replaceChar_self (by decide) _
  · decide

theorem tab_not_mem_formatTXTList (l : List Char) : '\t' ∉ formatTXTList l := by
  unfold formatTXTList
  exact not_mem_replaceChar_self (by decide) _

theorem formatTXTList_idem (l : List Char) :
    formatTXTList (formatTXTList l) = formatTXTList l := by
  conv_lhs => rw [formatTXTList]
  rw [trimCutset_eq_self (formatTXTList_head_not_cut l) (formatTXTList_getLast_not_cut l)]
  rw [removeChar_eq_self (quote_not_mem_formatTXTList l)]
  rw [replaceChar_eq_self (newline_not_mem_formatTXTList l)]
  rw [replaceChar_eq_self (cr_not_mem_formatTXTList l)]
  rw [replaceChar_eq_self (tab_not_mem_formatTXTList l)]

theorem formatTXTValue_idem (value : String) :
    formatTXTValue (formatTXTValue value) = formatTXTValue value := by
  unfold formatTXTValue
  rw [show (String.mk (formatTXTList value.toList)).toList =
    formatTXTList value.toList from rfl, formatTXTList_idem]

/-- Claim C10: the text-record value formatter is idempotent — applying
formatTXTValue twice yields the same result as applying it once, for
every input string (the output has no double quotes, newlines, carriage
returns or tabs, and a second trim of surrounding quote characters
removes nothing, as the supporting lemmas show). -/
theorem formatTXTValue_idempotent (value : String) :
    formatTXTValue (formatTXTValue value) = formatTXTValue value :=
  formatTXTValue_idem value

/-! ## Helper lemmas on the update diff loop -/

theorem formatRecordValue_idem (value recordType : String) :
    formatRecordValue (formatRecordValue value recordType) recordType =
      formatRecordValue value recordType := by
  unfold formatRecordValue
  by_cases h : (recordType == "TXT") = true
  · rw [if_pos h, if_pos h, formatTXTValue_idem]
  · rw [if_neg h, if_neg h]

theorem mem_lastPerValue {r : DNSRecord} : ∀ {l : List DNSRecord},
    r ∈ lastPerValue l → r ∈ l := by
  intro l
  induction l with
  | nil => intro h; cases h
  | cons r0 rs ih =>
    intro h
    unfold lastPerValue at h
    by_cases hany : (rs.any (fun r2 => r2.value == r0.value)) = true
    · rw [if_pos hany] at h
      exact List.mem_cons_of_mem r0 (ih h)
    · rw [if_neg hany] at h
      rcases List.mem_cons.mp h with h1 | h2
      · exact h1 ▸ List.mem_cons_self r0 rs
      · exact List.mem_cons_of_mem r0 (ih h2)

theorem lastPerValue_values_nodup : ∀ (l : List DNSRecord),
    ((lastPerValue l).map (fun r => r.value)).Nodup := by
  intro l
  induction l with
  | nil => exact List.nodup_nil
  | cons r0 rs ih =>
    unfold lastPerValue
    by_cases hany : (rs.any (fun r2 => r2.value == r0.value)) = true
    · rw [if_pos hany]
      exact ih
    · rw [if_neg hany]
      rw [List.map_cons, List.nodup_cons]
      refine ⟨?_, ih⟩
      intro hmem
      obtain ⟨r2, hr2, hv⟩ := List.mem_map.mp hmem
      apply hany
      rw [List.any_eq_true]
      exact ⟨r2, mem_lastPerValue hr2, by simp [hv]⟩

theorem updateLoop_remaining_subset (resp : Resp) (dnsName : String) (ttl : Int)
    (active : Bool) : ∀ (current : List DNSRecord) (desired : List String),
    (updateExistingLoop resp dnsName ttl active current desired).2.2 ⊆ desired := by
  intro current
  induction current with
  | nil => intro desired x hx; exact hx
  | cons r rest ih =>
    intro desired x hx
    simp only [updateExistingLoop] at hx
    by_cases hc : (desired.contains r.value) = true
    · rw [if_pos hc] at hx
      by_cases hdrift : (r.ttl != ttl || r.active != active || r.name != dnsName) = true
      · rw [if_pos hdrift] at hx
        cases hresp : resp (MutCall.updateRec
            { r with ttl := ttl, active := active, name := dnsName }) with
        | some e =>
          rw [hresp] at hx
          exact hx
        | none =>
          rw [hresp] at hx
          exact List.erase_subset _ _ (ih (desired.erase r.value) hx)
      · rw [if_neg hdrift] at hx
        exact List.erase_subset _ _ (ih (desired.erase r.value) hx)
    · rw [if_neg hc] at hx
      simp only [deleteDNSRecord] at hx
      cases hresp : resp (MutCall.deleteRec r) with
      | some e =>
        rw [hresp] at hx
        exact hx
      | none =>
        rw [hresp] at hx
        exact ih desired hx

theorem updateLoop_absent_value (resp : Resp) (dnsName : String) (ttl : Int)
    (active : Bool) (v : String) : ∀ (current : List DNSRecord) (desired : List String),
    (∀ r ∈ current, r.value ≠ v) → v ∉ desired →
    (∀ c ∈ (updateExistingLoop resp dnsName ttl active current desired).1,
        mutValue c ≠ v) ∧
    v ∉ (updateExistingLoop resp dnsName ttl active current desired).2.2 := by
  intro current
  induction current with
  | nil =>
    intro desired _ hnd
    exact ⟨fun c hc => absurd hc (List.not_mem_nil c), hnd⟩
  | cons r rest ih =>
    intro desired hcur hnd
    have hrv : r.value ≠ v := hcur r (List.mem_cons_self r rest)
    have hrest : ∀ r2 ∈ rest, r2.value ≠ v :=
      fun r2 h2 => hcur r2 (List.mem_cons_of_mem r h2)
    have hnde : v ∉ desired.erase r.value :=
      fun hm => hnd (List.erase_subset _ _ hm)
    simp only [updateExistingLoop]
    by_cases hc : (desired.contains r.value) = true
    · rw [if_pos hc]
      by_cases hdrift : (r.ttl != ttl || r.active != active || r.name != dnsName) = true
      · rw [if_pos hdrift]
        cases hresp : resp (MutCall.updateRec
            { r with ttl := ttl, active := active, name := dnsName }) with
        | some e =>
          refine ⟨?_, hnd⟩
          intro c hcm
          rcases List.mem_singleton.mp hcm with rfl
          simpa [mutValue] using hrv
        | none =>
          obtain ⟨ihc, ihr⟩ := ih (desired.erase r.value) hrest hnde
          refine ⟨?_, ihr⟩
          intro c hcm
          rcases List.mem_cons.mp hcm with rfl | hcm2
          · simpa [mutValue] using hrv
          · exact ihc c hcm2
      · rw [if_neg hdrift]
        exact ih (desired.erase r.value) hrest hnde
    · rw [if_neg hc]
      simp only [deleteDNSRecord]
      cases hresp : resp (MutCall.deleteRec r) with
      | some e =>
        refine ⟨?_, hnd⟩
        intro c hcm
        rcases List.mem_singleton.mp hcm with rfl
        simpa [mutValue] using hrv
      | none =>
        obtain ⟨ihc, ihr⟩ := ih desired hrest hnd
        refine ⟨?_, ihr⟩
        intro c hcm
        rcases List.mem_cons.mp hcm with rfl | hcm2
        · simpa [mutValue] using hrv
        · exact ihc c hcm2

theorem contains_eq_true_of_mem {l : List String} {a : String} (h : a ∈ l) :
    l.contains a = true := by
  simpa [List.elem_iff] using h

theorem createDNSRecord_trace (p : Provider) (resp : Resp)
    (dnsName recordType value : String) (ttl : Int) :
    (createDNSRecord p resp dnsName recordType value ttl).1 =
      [MutCall.createRec (mkDNSRecord p dnsName recordType value ttl)] := by
  simp only [createDNSRecord]
  split
  · rfl
  · split
    · rfl
    · split
      · rfl
      · rfl

theorem createMissingLoop_calls (p : Provider) (resp : Resp)
    (dnsName recordType : String) (ttl : Int) : ∀ (vs : List String),
    ∀ c ∈ (createMissingLoop p resp dnsName recordType ttl vs).1,
      ∃ w ∈ vs, c = MutCall.createRec (mkDNSRecord p dnsName recordType w ttl) := by
  intro vs
  induction vs with
  | nil => intro c hc; cases hc
  | cons w ws ih =>
    intro c hc
    simp only [createMissingLoop] at hc
    cases herr : (createDNSRecord p resp dnsName recordType w ttl).2 with
    | some e =>
      rw [herr] at hc
      rw [createDNSRecord_trace] at hc
      rcases List.mem_singleton.mp hc with rfl
      exact ⟨w, List.mem_cons_self w ws, rfl⟩
    | none =>
      rw [herr] at hc
      rw [createDNSRecord_trace] at hc
      rcases List.mem_append.mp hc with h1 | h2
      · rcases List.mem_singleton.mp h1 with rfl
        exact ⟨w, List.mem_cons_self w ws, rfl⟩
      · obtain ⟨w2, hw2, hcw⟩ := ih c h2
        exact ⟨w2, List.mem_cons_of_mem w hw2, hcw⟩

theorem updateLoop_nodrift_value (resp : Resp) (dnsName : String) (ttl : Int)
    (active : Bool) (v : String) :
    ∀ (current : List DNSRecord) (desired : List String),
    ((current.map (fun r => r.value)).Nodup) → desired.Nodup → v ∈ desired →
    (∃ r, r ∈ current ∧ r.value = v ∧ r.ttl = ttl ∧ r.active = active ∧
      r.name = dnsName) →
    (∀ c ∈ (updateExistingLoop resp dnsName ttl active current desired).1,
        mutValue c ≠ v) ∧
    ((updateExistingLoop resp dnsName ttl active current desired).2.1 = none →
      v ∉ (updateExistingLoop resp dnsName ttl active current desired).2.2) := by
  intro current
  induction current with
  | nil =>
    intro desired _ _ _ hex
    obtain ⟨r, hr, _⟩ := hex
    cases hr
  | cons r rest ih =>
    intro desired hnodup hdnodup hvd hex
    have hrestnodup : ((rest.map (fun r => r.value)).Nodup) :=
      (List.nodup_cons.mp hnodup).2
    have hheadnotin : r.value ∉ rest.map (fun r2 => r2.value) :=
      (List.nodup_cons.mp hnodup).1
    simp only [updateExistingLoop]
    obtain ⟨r0, hr0mem, hr0v, hr0ttl, hr0act, hr0name⟩ := hex
    rcases List.mem_cons.mp hr0mem with rfl | hr0rest
    · -- the head record carries value v and has no drift
      have hc : (desired.contains r0.value) = true :=
        contains_eq_true_of_mem (hr0v ▸ hvd)
      rw [if_pos hc]
      have hdrift : (r0.ttl != ttl || r0.active != active || r0.name != dnsName) =
          false := by
        simp [hr0ttl, hr0act, hr0name]
      rw [hdrift]
      simp only [Bool.false_eq_true, if_false]
      have hrestne : ∀ r2 ∈ rest, r2.value ≠ v := by
        intro r2 h2 he
        exact hheadnotin (hr0v ▸ he ▸ List.mem_map_of_mem (fun r3 => r3.value) h2)
      have hnde : v ∉ desired.erase r0.value := by
        rw [hr0v]
        exact hdnodup.not_mem_erase
      obtain ⟨habs1, habs2⟩ :=
        updateLoop_absent_value resp dnsName ttl active v rest
          (desired.erase r0.value) hrestne hnde
      exact ⟨habs1, fun _ => habs2⟩
    · -- the head record carries a different value
      have hrvne : r.value ≠ v := by
        intro he
        exact hheadnotin (he ▸ hr0v ▸
          List.mem_map_of_mem (fun r3 => r3.value) hr0rest)
      by_cases hc : (desired.contains r.value) = true
      · rw [if_pos hc]
        have hvde : v ∈ desired.erase r.value :=
          (List.mem_erase_of_ne (fun he => hrvne he.symm)).mpr hvd
        by_cases hdrift :
            (r.ttl != ttl || r.active != active || r.name != dnsName) = true
        · rw [if_pos hdrift]
          cases hresp : resp (MutCall.updateRec
              { r with ttl := ttl, active := active, name := dnsName }) with
          | some e =>
            refine ⟨?_, fun habs => by cases habs⟩
            intro c hcm
            rcases List.mem_singleton.mp hcm with rfl
            simpa [mutValue] using hrvne
          | none =>
            obtain ⟨ih1, ih2⟩ := ih (desired.erase r.value) hrestnodup
              (hdnodup.erase r.value) hvde ⟨r0, hr0rest, hr0v, hr0ttl, hr0act, hr0name⟩
            refine ⟨?_, ih2⟩
            intro c hcm
            rcases List.mem_cons.mp hcm with rfl | hcm2
            · simpa [mutValue] using hrvne
            · exact ih1 c hcm2
        · rw [if_neg hdrift]
          exact ih (desired.erase r.value) hrestnodup (hdnodup.erase r.value) hvde
            ⟨r0, hr0rest, hr0v, hr0ttl, hr0act, hr0name⟩
      · rw [if_neg hc]
        simp only [deleteDNSRecord]
        cases hresp : resp (MutCall.deleteRec r) with
        | some e =>
          refine ⟨?_, fun habs => by cases habs⟩
          intro c hcm
          rcases List.mem_singleton.mp hcm with rfl
          simpa [mutValue] using hrvne
        | none =>
          obtain ⟨ih1, ih2⟩ := ih desired hrestnodup hdnodup hvd
            ⟨r0, hr0rest, hr0v, hr0ttl, hr0act, hr0name⟩
          refine ⟨?_, ih2⟩
          intro c hcm
          rcases List.mem_cons.mp hcm with rfl | hcm2
          · simpa [mutValue] using hrvne
          · exact ih1 c hcm2

theorem updateLoop_retained_value (resp : Resp) (dnsName : String) (ttl : Int)
    (active : Bool) (v : String) :
    ∀ (current : List DNSRecord) (desired : List String),
    ((current.map (fun r => r.value)).Nodup) → desired.Nodup → v ∈ desired →
    (∃ r, r ∈ current ∧ r.value = v) →
    (∀ c ∈ (updateExistingLoop resp dnsName ttl active current desired).1,
        mutValue c = v → isUpdateCall c = true) ∧
    ((updateExistingLoop resp dnsName ttl active current desired).2.1 = none →
      v ∉ (updateExistingLoop resp dnsName ttl active current desired).2.2) := by
  intro current
  induction current with
  | nil =>
    intro desired _ _ _ hex
    obtain ⟨r, hr, _⟩ := hex
    cases hr
  | cons r rest ih =>
    intro desired hnodup hdnodup hvd hex
    have hrestnodup : ((rest.map (fun r => r.value)).Nodup) :=
      (List.nodup_cons.mp hnodup).2
    have hheadnotin : r.value ∉ rest.map (fun r2 => r2.value) :=
      (List.nodup_cons.mp hnodup).1
    simp only [updateExistingLoop]
    obtain ⟨r0, hr0mem, hr0v⟩ := hex
    rcases List.mem_cons.mp hr0mem with rfl | hr0rest
    · -- the head record carries value v; it is retained (update call at most)
      have hc : (desired.contains r0.value) = true :=
        contains_eq_true_of_mem (hr0v ▸ hvd)
      rw [if_pos hc]
      have hrestne : ∀ r2 ∈ rest, r2.value ≠ v := by
        intro r2 h2 he
        exact hheadnotin (hr0v ▸ he ▸ List.mem_map_of_mem (fun r3 => r3.value) h2)
      have hnde : v ∉ desired.erase r0.value := by
        rw [hr0v]
        exact hdnodup.not_mem_erase
      obtain ⟨habs1, habs2⟩ :=
        updateLoop_absent_value resp dnsName ttl active v rest
          (desired.erase r0.value) hrestne hnde
      by_cases hdrift :
          (r0.ttl != ttl || r0.active != active || r0.name != dnsName) = true
      · rw [if_pos hdrift]
        cases hresp : resp (MutCall.updateRec
            { r0 with ttl := ttl, active := active, name := dnsName }) with
        | some e =>
          refine ⟨?_, fun habs => by cases habs⟩
          intro c hcm _
          rcases List.mem_singleton.mp hcm with rfl
          rfl
        | none =>
          refine ⟨?_, fun _ => habs2⟩
          intro c hcm
          rcases List.mem_cons.mp hcm with rfl | hcm2
          · intro _; rfl
          · intro hcv; exact absurd hcv (habs1 c hcm2)
      · rw [if_neg hdrift]
        exact ⟨fun c hcm hcv => absurd hcv (habs1 c hcm), fun _ => habs2⟩
    · -- the head record carries a different value
      have hrvne : r.value ≠ v := by
        intro he
        exact hheadnotin (he ▸ hr0v ▸
          List.mem_map_of_mem (fun r3 => r3.value) hr0rest)
      by_cases hc : (desired.contains r.value) = true
      · rw [if_pos hc]
        have hvde : v ∈ desired.erase r.value :=
          (List.mem_erase_of_ne (fun he => hrvne he.symm)).mpr hvd
        by_cases hdrift :
            (r.ttl != ttl || r.active != active || r.name != dnsName) = true
        · rw [if_pos hdrift]
          cases hresp : resp (MutCall.updateRec
              { r with ttl := ttl, active := active, name := dnsName }) with
          | some e =>
            refine ⟨?_, fun habs => by cases habs⟩
            intro c hcm _
            rcases List.mem_singleton.mp hcm with rfl
            rfl
          | none =>
            obtain ⟨ih1, ih2⟩ := ih (desired.erase r.value) hrestnodup
              (hdnodup.erase r.value) hvde ⟨r0, hr0rest, hr0v⟩
            refine ⟨?_, ih2⟩
            intro c hcm
            rcases List.mem_cons.mp hcm with rfl | hcm2
            · intro _; rfl
            · exact ih1 c hcm2
        · rw [if_neg hdrift]
          exact ih (desired.erase r.value) hrestnodup (hdnodup.erase r.value) hvde
            ⟨r0, hr0rest, hr0v⟩
      · rw [if_neg hc]
        simp only [deleteDNSRecord]
        cases hresp : resp (MutCall.deleteRec r) with
        | some e =>
          refine ⟨?_, fun habs => by cases habs⟩
          intro c hcm hcv
          rcases List.mem_singleton.mp hcm with rfl
          exact absurd hcv (by simpa [mutValue] using hrvne)
        | none =>
          obtain ⟨ih1, ih2⟩ := ih desired hrestnodup hdnodup hvd ⟨r0, hr0rest, hr0v⟩
          refine ⟨?_, ih2⟩
          intro c hcm
          rcases List.mem_cons.mp hcm with rfl | hcm2
          · intro hcv
            exact absurd hcv (by simpa [mutValue] using hrvne)
          · exact ih1 c hcm2

theorem formatted_desired_mem {newEp : Endpoint} {w : String}
    (hw : w ∈ (newEp.targets.map (fun t => formatRecordValue t newEp.recordType)).dedup) :
    formatRecordValue w newEp.recordType = w := by
  rw [List.mem_dedup] at hw
  obtain ⟨t, _, rfl⟩ := List.mem_map.mp hw
  exact formatRecordValue_idem t newEp.recordType

/-! ## Claim C5: retained values without drift cause no backend call -/

/-- Claim C5: for an update task, a value present in both the current
record set (as indexed by the diff) and the desired value set whose
retained record has no attribute drift (TTL, active flag and stored name
all match) receives no backend call at all: every call in the trace
carries a different value. -/
theorem retained_nodrift_value_no_calls (p : Provider) (env : String) (resp : Resp)
    (allRecords : List DNSRecord) (newEp : Endpoint) (v : String) (r : DNSRecord)
    (hr : r ∈ lastPerValue (findMatchingRecords allRecords
      (ensureFullDNSName p (stripTrailingDot newEp.dnsName)) newEp.recordType))
    (hrv : r.value = v)
    (hvd : v ∈ (newEp.targets.map (fun t => formatRecordValue t newEp.recordType)).dedup)
    (httl : r.ttl = (if newEp.recordTTL > 0 then newEp.recordTTL else p.ttl))
    (hact : r.active = !p.disableProtection)
    (hname : r.name = ensureFullDNSName p (stripTrailingDot newEp.dnsName)) :
    ((processUpdateEndpoint p env resp allRecords newEp).1.all
      (fun c => mutValue c != v)) = true := by
  rw [List.all_eq_true]
  intro c hc
  rw [bne_iff_ne]
  simp only [processUpdateEndpoint] at hc
  by_cases hskip : (isProduction env && isPrivateEndpoint newEp) = true
  · rw [if_pos hskip] at hc
    cases hc
  · rw [if_neg hskip] at hc
    revert hc
    cases htxt : txtLookup allRecords (stripTrailingDot newEp.dnsName) with
    | none => intro hc; cases hc
    | some txtVal =>
      by_cases hown : (isOwnedByExternalDNS txtVal p.owner) = true
      · simp only [hown, Bool.not_true, Bool.false_eq_true, if_false]
        have hloop := updateLoop_nodrift_value resp
          (ensureFullDNSName p (stripTrailingDot newEp.dnsName))
          (if newEp.recordTTL > 0 then newEp.recordTTL else p.ttl)
          (!p.disableProtection) v
          (lastPerValue (findMatchingRecords allRecords
            (ensureFullDNSName p (stripTrailingDot newEp.dnsName)) newEp.recordType))
          ((newEp.targets.map (fun t => formatRecordValue t newEp.recordType)).dedup)
          (lastPerValue_values_nodup _) (List.nodup_dedup _) hvd
          ⟨r, hr, hrv, httl, hact, hname⟩
        cases herr : (updateExistingLoop resp
            (ensureFullDNSName p (stripTrailingDot newEp.dnsName))
            (if newEp.recordTTL > 0 then newEp.recordTTL else p.ttl)
            (!p.disableProtection)
            (lastPerValue (findMatchingRecords allRecords
              (ensureFullDNSName p (stripTrailingDot newEp.dnsName)) newEp.recordType))
            ((newEp.targets.map
              (fun t => formatRecordValue t newEp.recordType)).dedup)).2.1 with
        | some e =>
          intro hc
          exact hloop.1 c hc
        | none =>
          intro hc
          rcases List.mem_append.mp hc with h1 | h2
          · exact hloop.1 c h1
          · obtain ⟨w, hw, rfl⟩ := createMissingLoop_calls p resp
              (ensureFullDNSName p (stripTrailingDot newEp.dnsName))
              newEp.recordType
              (if newEp.recordTTL > 0 then newEp.recordTTL else p.ttl) _ c h2
            have hwm : formatRecordValue w newEp.recordType = w :=
              formatted_desired_mem (updateLoop_remaining_subset _ _ _ _ _ _ hw)
            have hwv : w ≠ v := by
              intro he
              exact (hloop.2 herr) (he ▸ hw)
            show formatRecordValue w newEp.recordType ≠ v
            rw [hwm]
            exact hwv
      · have hcond : ((!isOwnedByExternalDNS txtVal p.owner) = true) := by
          simp [Bool.not_eq_true] at hown ⊢
          exact hown
        simp only [hcond, if_true]
        intro hc
        cases hc

/-! ## Claim C8: retention takes priority over recreation -/

/-- Claim C8: for an update task, a value present in both the current
record set (as indexed by the diff) and the desired value set is never
deleted and never recreated — every backend call in the trace either
carries a different value or is an update call.  In particular the
trace never contains a delete of that value followed by a create for
the same value. -/
theorem matching_value_retained_not_recreated (p : Provider) (env : String)
    (resp : Resp) (allRecords : List DNSRecord) (newEp : Endpoint) (v : String)
    (r : DNSRecord)
    (hr : r ∈ lastPerValue (findMatchingRecords allRecords
      (ensureFullDNSName p (stripTrailingDot newEp.dnsName)) newEp.recordType))
    (hrv : r.value = v)
    (hvd : v ∈ (newEp.targets.map (fun t => formatRecordValue t newEp.recordType)).dedup) :
    ((processUpdateEndpoint p env resp allRecords newEp).1.all
      (fun c => (mutValue c != v) || isUpdateCall c)) = true := by
  rw [List.all_eq_true]
  intro c hc
  rw [Bool.or_eq_true, bne_iff_ne]
  simp only [processUpdateEndpoint] at hc
  by_cases hskip : (isProduction env && isPrivateEndpoint newEp) = true
  · rw [if_pos hskip] at hc
    cases hc
  · rw [if_neg hskip] at hc
    revert hc
    cases htxt : txtLookup allRecords (stripTrailingDot newEp.dnsName) with
    | none => intro hc; cases hc
    | some txtVal =>
      by_cases hown : (isOwnedByExternalDNS txtVal p.owner) = true
      · simp only [hown, Bool.not_true, Bool.false_eq_true, if_false]
        have hloop := updateLoop_retained_value resp
          (ensureFullDNSName p (stripTrailingDot newEp.dnsName))
          (if newEp.recordTTL > 0 then newEp.recordTTL else p.ttl)
          (!p.disableProtection) v
          (lastPerValue (findMatchingRecords allRecords
            (ensureFullDNSName p (stripTrailingDot newEp.dnsName)) newEp.recordType))
          ((newEp.targets.map (fun t => formatRecordValue t newEp.recordType)).dedup)
          (lastPerValue_values_nodup _) (List.nodup_dedup _) hvd ⟨r, hr, hrv⟩
        cases herr : (updateExistingLoop resp
            (ensureFullDNSName p (stripTrailingDot newEp.dnsName))
            (if newEp.recordTTL > 0 then newEp.recordTTL else p.ttl)
            (!p.disableProtection)
            (lastPerValue (findMatchingRecords allRecords
              (ensureFullDNSName p (stripTrailingDot newEp.dnsName)) newEp.recordType))
            ((newEp.targets.map
              (fun t => formatRecordValue t newEp.recordType)).dedup)).2.1 with
        | some e =>
          intro hc
          by_cases hcv : mutValue c = v
          · exact Or.inr (hloop.1 c hc hcv)
          · exact Or.inl hcv
        | none =>
          intro hc
          rcases List.mem_append.mp hc with h1 | h2
          · by_cases hcv : mutValue c = v
            · exact Or.inr (hloop.1 c h1 hcv)
            · exact Or.inl hcv
          · obtain ⟨w, hw, rfl⟩ := createMissingLoop_calls p resp
              (ensureFullDNSName p (stripTrailingDot newEp.dnsName))
              newEp.recordType
              (if newEp.recordTTL > 0 then newEp.recordTTL else p.ttl) _ c h2
            have hwm : formatRecordValue w newEp.recordType = w :=
              formatted_desired_mem (updateLoop_remaining_subset _ _ _ _ _ _ hw)
            have hwv : w ≠ v := by
              intro he
              exact (hloop.2 herr) (he ▸ hw)
            refine Or.inl ?_
            show formatRecordValue w newEp.recordType ≠ v
            rw [hwm]
            exact hwv
      · have hcond : ((!isOwnedByExternalDNS txtVal p.owner) = true) := by
          simp [Bool.not_eq_true] at hown ⊢
          exact hown
        simp only [hcond, if_true]
        intro hc
        cases hc

/-- Claim C5, witness: a matching A record with identical TTL, active
flag and name receives no backend call in a concrete update that also
deletes a stale sibling value. -/
theorem retained_nodrift_value_no_calls_witness :
    ((processUpdateEndpoint ⟨"example.com", 300, "owner1", false, false⟩ "dev" respOk
        [⟨"a.example.com", "TXT", "heritage=external-dns,external-dns/owner=owner1",
          300, true, true⟩,
         ⟨"a.example.com", "A", "1.2.3.4", 300, true, true⟩,
         ⟨"a.example.com", "A", "5.6.7.8", 300, true, true⟩]
        ⟨"a.example.com", "A", ["1.2.3.4"], 0, none⟩).1.all
      (fun c => mutValue c != "1.2.3.4")) = true :=
  retained_nodrift_value_no_calls ⟨"example.com", 300, "owner1", false, false⟩ "dev"
    respOk
    [⟨"a.example.com", "TXT", "heritage=external-dns,external-dns/owner=owner1",
      300, true, true⟩,
     ⟨"a.example.com", "A", "1.2.3.4", 300, true, true⟩,
     ⟨"a.example.com", "A", "5.6.7.8", 300, true, true⟩]
    ⟨"a.example.com", "A", ["1.2.3.4"], 0, none⟩ "1.2.3.4"
    ⟨"a.example.com", "A", "1.2.3.4", 300, true, true⟩
    (by decide) (by decide) (by decide) (by decide) (by decide) (by decide)

/-- Claim C8, witness: a matching A record whose TTL drifted is updated
in place in a concrete run — every call carrying its value is an update
call, never a delete or create. -/
theorem matching_value_retained_not_recreated_witness :
    ((processUpdateEndpoint ⟨"example.com", 300, "owner1", false, false⟩ "dev" respOk
        [⟨"a.example.com", "TXT", "heritage=external-dns,external-dns/owner=owner1",
          300, true, true⟩,
         ⟨"a.example.com", "A", "1.2.3.4", 100, true, true⟩,
         ⟨"a.example.com", "A", "5.6.7.8", 300, true, true⟩]
        ⟨"a.example.com", "A", ["1.2.3.4"], 0, none⟩).1.all
      (fun c => (mutValue c != "1.2.3.4") || isUpdateCall c)) = true :=
  matching_value_retained_not_recreated ⟨"example.com", 300, "owner1", false, false⟩
    "dev" respOk
    [⟨"a.example.com", "TXT", "heritage=external-dns,external-dns/owner=owner1",
      300, true, true⟩,
     ⟨"a.example.com", "A", "1.2.3.4", 100, true, true⟩,
     ⟨"a.example.com", "A", "5.6.7.8", 300, true, true⟩]
    ⟨"a.example.com", "A", ["1.2.3.4"], 0, none⟩ "1.2.3.4"
    ⟨"a.example.com", "A", "1.2.3.4", 100, true, true⟩
    (by decide) (by decide) (by decide)

/-! ## Claim C4: round-trip idempotence (create then re-derive as update) -/

theorem createDNSRecord_respOk (p : Provider) (dnsName recordType value : String)
    (ttl : Int) :
    createDNSRecord p respOk dnsName recordType value ttl =
      ([MutCall.createRec (mkDNSRecord p dnsName recordType value ttl)], none) := by
  rfl

theorem createTargets_respOk (p : Provider) (dnsName recordType : String)
    (ttl : Int) : ∀ (targets : List String),
    createTargets p respOk dnsName recordType ttl targets =
      (targets.map (fun t => MutCall.createRec (mkDNSRecord p dnsName recordType
        (formatRecordValue t recordType) ttl)), none) := by
  intro targets
  induction targets with
  | nil => rfl
  | cons t ts ih =>
    simp only [createTargets, createDNSRecord_respOk, ih, List.map_cons]
    rfl

theorem processCreateEndpoint_respOk (p : Provider) (env : String) (ep : Endpoint)
    (hskip : (isProduction env && isPrivateEndpoint ep) = false)
    (htype : (ep.recordType != "TXT") = true) :
    processCreateEndpoint p env respOk ep =
      (ep.targets.map (fun t => MutCall.createRec (mkDNSRecord p
          (ensureFullDNSName p (stripTrailingDot ep.dnsName)) ep.recordType
          (formatRecordValue t ep.recordType)
          (if ep.recordTTL > 0 then ep.recordTTL else p.ttl))) ++
        [MutCall.createRec (mkDNSRecord p
          (ensureFullDNSName p (stripTrailingDot ep.dnsName)) "TXT"
          (ownershipTXTValue p.owner ep.resourceLabel)
          (if ep.recordTTL > 0 then ep.recordTTL else p.ttl))], none) := by
  simp only [processCreateEndpoint, hskip, Bool.false_eq_true, if_false,
    createTargets_respOk, htype, if_true, createDNSRecord_respOk]

theorem createdRecords_append (l1 l2 : List MutCall) :
    createdRecords (l1 ++ l2) = createdRecords l1 ++ createdRecords l2 := by
  induction l1 with
  | nil => rfl
  | cons c cs ih =>
    cases c <;> simp [createdRecords, ih]

theorem createdRecords_map {α : Type} (f : α → DNSRecord) : ∀ (xs : List α),
    createdRecords (xs.map (fun x => MutCall.createRec (f x))) = xs.map f := by
  intro xs
  induction xs with
  | nil => rfl
  | cons x t ih => simp [createdRecords, ih]

theorem txtLookup_append_txt (records : List DNSRecord) (r : DNSRecord)
    (name : String) (ht : r.recordType = "TXT") (hn : r.name = name) :
    txtLookup (records ++ [r]) name = some r.value := by
  unfold txtLookup
  rw [List.filter_append]
  have hr : List.filter (fun r2 => r2.recordType == "TXT" && r2.name == name) [r] =
      [r] := by
    simp [ht, hn]
  rw [hr]
  simp

theorem findMatchingRecords_append (l1 l2 : List DNSRecord)
    (dnsName recordType : String) :
    findMatchingRecords (l1 ++ l2) dnsName recordType =
      findMatchingRecords l1 dnsName recordType ++
        findMatchingRecords l2 dnsName recordType := by
  unfold findMatchingRecords
  rw [List.filter_append]

theorem findMatchingRecords_all {l : List DNSRecord} {dnsName recordType : String}
    (h : ∀ r ∈ l, r.name = dnsName ∧ r.recordType = recordType) :
    findMatchingRecords l dnsName recordType = l := by
  unfold findMatchingRecords
  induction l with
  | nil => rfl
  | cons r t ih =>
    have hr := h r (List.mem_cons_self r t)
    rw [List.filter_cons_of_pos (by simp [hr.1, hr.2])]
    rw [ih (fun r2 h2 => h r2 (List.mem_cons_of_mem r h2))]

theorem lastPerValue_values_mem : ∀ (l : List DNSRecord) (v : String),
    v ∈ l.map (fun r => r.value) → v ∈ (lastPerValue l).map (fun r => r.value) := by
  intro l
  induction l with
  | nil => intro v h; cases h
  | cons r rs ih =>
    intro v h
    rw [List.map_cons] at h
    unfold lastPerValue
    by_cases hany : (rs.any (fun r2 => r2.value == r.value)) = true
    · rw [if_pos hany]
      rcases List.mem_cons.mp h with rfl | h2
      · obtain ⟨r2, hr2, hv2⟩ := List.any_eq_true.mp hany
        have he2 : r2.value = r.value := by simpa using hv2
        exact ih r.value (he2 ▸ List.mem_map_of_mem (fun r3 => r3.value) hr2)
      · exact ih v h2
    · rw [if_neg hany, List.map_cons]
      rcases List.mem_cons.mp h with rfl | h2
      · exact List.mem_cons_self _ _
      · exact List.mem_cons_of_mem _ (ih v h2)

theorem updateLoop_all_nodrift (resp : Resp) (dnsName : String) (ttl : Int)
    (active : Bool) : ∀ (current : List DNSRecord) (desired : List String),
    desired.Nodup →
    (∀ r ∈ current, r.value ∈ desired ∧ r.ttl = ttl ∧ r.active = active ∧
      r.name = dnsName) →
    (∀ v ∈ desired, ∃ r ∈ current, r.value = v) →
    ((current.map (fun r => r.value)).Nodup) →
    updateExistingLoop resp dnsName ttl active current desired = ([], none, []) := by
  intro current
  induction current with
  | nil =>
    intro desired _ _ hcov _
    have hdes : desired = [] := by
      rw [List.eq_nil_iff_forall_not_mem]
      intro v hv
      obtain ⟨r, hr, _⟩ := hcov v hv
      cases hr
    rw [hdes]
    rfl
  | cons r rest ih =>
    intro desired hdnodup hno hcov hvnodup
    have hrestnodup : ((rest.map (fun r => r.value)).Nodup) :=
      (List.nodup_cons.mp hvnodup).2
    have hheadnotin : r.value ∉ rest.map (fun r2 => r2.value) :=
      (List.nodup_cons.mp hvnodup).1
    obtain ⟨hrd, hrttl, hract, hrname⟩ := hno r (List.mem_cons_self r rest)
    simp only [updateExistingLoop]
    rw [if_pos (contains_eq_true_of_mem hrd)]
    have hdrift : (r.ttl != ttl || r.active != active || r.name != dnsName) =
        false := by
      simp [hrttl, hract, hrname]
    rw [hdrift]
    simp only [Bool.false_eq_true, if_false]
    apply ih
    · exact hdnodup.erase r.value
    · intro r2 h2
      obtain ⟨h2d, h2ttl, h2act, h2name⟩ := hno r2 (List.mem_cons_of_mem r h2)
      refine ⟨?_, h2ttl, h2act, h2name⟩
      have hne : r2.value ≠ r.value := by
        intro he
        exact hheadnotin (he ▸ List.mem_map_of_mem (fun r3 => r3.value) h2)
      exact (List.mem_erase_of_ne hne).mpr h2d
    · intro v hv
      have hv2 := (hdnodup.mem_erase_iff).mp hv
      obtain ⟨r2, hr2, hr2v⟩ := hcov v hv2.2
      rcases List.mem_cons.mp hr2 with rfl | hr2rest
      · exact absurd hr2v.symm (by simpa using hv2.1)
      · exact ⟨r2, hr2rest, hr2v⟩
    · exact hrestnodup

theorem createdRecords_singleton_create (r : DNSRecord) :
    createdRecords [MutCall.createRec r] = [r] := rfl

/-- Claim C4: round-trip idempotence within the engine.  Applying a
create task against an all-success backend and re-applying the same
desired endpoint as an update task against the backend state produced by
the creation (the created records appended to the snapshot) issues zero
additional backend mutation calls and no error.  Hypotheses: the
endpoint is not of TXT type (TXT-typed endpoints get no co-located
ownership record), its name already carries the domain (the update path
looks the ownership token up under the unexpanded name), and the
snapshot held no record at that name and type before the creation. -/
theorem create_then_update_roundtrip (p : Provider) (env : String)
    (state0 : List DNSRecord) (ep : Endpoint)
    (htype : (ep.recordType != "TXT") = true)
    (hfix : ensureFullDNSName p (stripTrailingDot ep.dnsName) =
      stripTrailingDot ep.dnsName)
    (hfresh : findMatchingRecords state0
      (ensureFullDNSName p (stripTrailingDot ep.dnsName)) ep.recordType = []) :
    processUpdateEndpoint p env respOk
      (state0 ++ createdRecords (processCreateEndpoint p env respOk ep).1) ep =
      ([], none) := by
  by_cases hskip : (isProduction env && isPrivateEndpoint ep) = true
  · simp only [processUpdateEndpoint, hskip, if_true]
  · have hskipf : (isProduction env && isPrivateEndpoint ep) = false := by
      simpa using hskip
    rw [processCreateEndpoint_respOk p env ep hskipf htype]
    simp only [createdRecords_append, createdRecords_map,
      createdRecords_singleton_create]
    simp only [processUpdateEndpoint, hskipf, Bool.false_eq_true, if_false]
    rw [← List.append_assoc]
    rw [txtLookup_append_txt _ _ _ rfl hfix]
    have hne : ("TXT" == ep.recordType) = false := by
      rw [beq_eq_false_iff_ne]
      intro he
      rw [bne_iff_ne] at htype
      exact htype he.symm
    by_cases hown : (isOwnedByExternalDNS
        (mkDNSRecord p (ensureFullDNSName p (stripTrailingDot ep.dnsName)) "TXT"
          (ownershipTXTValue p.owner ep.resourceLabel)
          (if ep.recordTTL > 0 then ep.recordTTL else p.ttl)).value p.owner) = true
    · simp only [hown, Bool.not_true, Bool.false_eq_true, if_false]
      have hmatch : findMatchingRecords
          ((state0 ++ ep.targets.map (fun t => mkDNSRecord p
            (ensureFullDNSName p (stripTrailingDot ep.dnsName)) ep.recordType
            (formatRecordValue t ep.recordType)
            (if ep.recordTTL > 0 then ep.recordTTL else p.ttl))) ++
            [mkDNSRecord p (ensureFullDNSName p (stripTrailingDot ep.dnsName)) "TXT"
              (ownershipTXTValue p.owner ep.resourceLabel)
              (if ep.recordTTL > 0 then ep.recordTTL else p.ttl)])
          (ensureFullDNSName p (stripTrailingDot ep.dnsName)) ep.recordType =
          ep.targets.map (fun t => mkDNSRecord p
            (ensureFullDNSName p (stripTrailingDot ep.dnsName)) ep.recordType
            (formatRecordValue t ep.recordType)
            (if ep.recordTTL > 0 then ep.recordTTL else p.ttl)) := by
        rw [findMatchingRecords_append, findMatchingRecords_append, hfresh]
        have h2 : findMatchingRecords
            (ep.targets.map (fun t => mkDNSRecord p
              (ensureFullDNSName p (stripTrailingDot ep.dnsName)) ep.recordType
              (formatRecordValue t ep.recordType)
              (if ep.recordTTL > 0 then ep.recordTTL else p.ttl)))
            (ensureFullDNSName p (stripTrailingDot ep.dnsName)) ep.recordType =
            ep.targets.map (fun t => mkDNSRecord p
              (ensureFullDNSName p (stripTrailingDot ep.dnsName)) ep.recordType
              (formatRecordValue t ep.recordType)
              (if ep.recordTTL > 0 then ep.recordTTL else p.ttl)) := by
          apply findMatchingRecords_all
          intro r hr
          obtain ⟨t, _, rfl⟩ := List.mem_map.mp hr
          exact ⟨rfl, rfl⟩
        have h3 : findMatchingRecords
            [mkDNSRecord p (ensureFullDNSName p (stripTrailingDot ep.dnsName)) "TXT"
              (ownershipTXTValue p.owner ep.resourceLabel)
              (if ep.recordTTL > 0 then ep.recordTTL else p.ttl)]
            (ensureFullDNSName p (stripTrailingDot ep.dnsName)) ep.recordType = [] := by
          unfold findMatchingRecords
          simp [mkDNSRecord, hne]
        rw [h2, h3]
        simp
      rw [hmatch]
      rw [updateLoop_all_nodrift respOk
        (ensureFullDNSName p (stripTrailingDot ep.dnsName))
        (if ep.recordTTL > 0 then ep.recordTTL else p.ttl) (!p.disableProtection) _ _
        (List.nodup_dedup _)
        (by
          intro r hr
          obtain ⟨t, ht, rfl⟩ := List.mem_map.mp (mem_lastPerValue hr)
          refine ⟨?_, rfl, rfl, rfl⟩
          show formatRecordValue (formatRecordValue t ep.recordType) ep.recordType ∈ _
          rw [formatRecordValue_idem]
          exact List.mem_dedup.mpr
            (List.mem_map_of_mem (fun t => formatRecordValue t ep.recordType) ht))
        (by
          intro v hv
          obtain ⟨t, ht, rfl⟩ := List.mem_map.mp (List.mem_dedup.mp hv)
          have hvm : formatRecordValue t ep.recordType ∈
              (ep.targets.map (fun t => mkDNSRecord p
                (ensureFullDNSName p (stripTrailingDot ep.dnsName)) ep.recordType
                (formatRecordValue t ep.recordType)
                (if ep.recordTTL > 0 then ep.recordTTL else p.ttl))).map
              (fun r => r.value) := by
            rw [List.map_map]
            refine List.mem_map.mpr ⟨t, ht, ?_⟩
            show formatRecordValue (formatRecordValue t ep.recordType) ep.recordType =
              formatRecordValue t ep.recordType
            exact formatRecordValue_idem t ep.recordType
          obtain ⟨r, hr, hrv⟩ := List.mem_map.mp (lastPerValue_values_mem _ _ hvm)
          exact ⟨r, hr, hrv⟩)
        (lastPerValue_values_nodup _)]
      rfl
    · have hcond : ((!isOwnedByExternalDNS
          (mkDNSRecord p (ensureFullDNSName p (stripTrailingDot ep.dnsName)) "TXT"
            (ownershipTXTValue p.owner ep.resourceLabel)
            (if ep.recordTTL > 0 then ep.recordTTL else p.ttl)).value p.owner) =
          true) := by
        simp [Bool.not_eq_true] at hown ⊢
        exact hown
      simp only [hcond, if_true]

/-- Claim C4, witness: creating a fresh A record endpoint against an
empty snapshot and re-applying the same endpoint as an update against
the produced state issues zero backend mutation calls. -/
theorem create_then_update_roundtrip_witness :
    ((("A" : String) != "TXT") = true) ∧
    ensureFullDNSName ⟨"example.com", 300, "owner1", false, false⟩
      (stripTrailingDot "www.example.com") = stripTrailingDot "www.example.com" ∧
    processUpdateEndpoint ⟨"example.com", 300, "owner1", false, false⟩ "dev" respOk
      ([] ++ createdRecords (processCreateEndpoint
        ⟨"example.com", 300, "owner1", false, false⟩ "dev" respOk
        ⟨"www.example.com", "A", ["1.2.3.4"], 0, none⟩).1)
      ⟨"www.example.com", "A", ["1.2.3.4"], 0, none⟩ = ([], none) :=
  ⟨by decide, by decide,
    create_then_update_roundtrip ⟨"example.com", 300, "owner1", false, false⟩ "dev"
      [] ⟨"www.example.com", "A", ["1.2.3.4"], 0, none⟩
      (by decide) (by decide) (by decide)⟩
